import Mathlib

/-!
Verification of the client-side scripts of a video-meeting web application
(`static/app.js` and `static/meeting.js`).  Strings are modelled as `List Char`,
DOM containers as lists of node records, and the meeting-room controller as a
record of its mutable fields; every operation below is a direct shallow
embedding of the corresponding JavaScript function.
-/

namespace ZoomClone

/-- The character class `\s` of JavaScript regular expressions (WhiteSpace and
LineTerminator code points), also used by `String.prototype.trim`. -/
def isJsSpace (c : Char) : Bool :=
  c = ' ' || c = '\t' || c = '\n' || c = '\r' ||
  c = Char.ofNat 0x0B || c = Char.ofNat 0x0C || c = Char.ofNat 0xA0 ||
  c = Char.ofNat 0x1680 ||
  (Char.ofNat 0x2000 ≤ c && c ≤ Char.ofNat 0x200A) ||
  c = Char.ofNat 0x2028 || c = Char.ofNat 0x2029 || c = Char.ofNat 0x202F ||
  c = Char.ofNat 0x205F || c = Char.ofNat 0x3000 || c = Char.ofNat 0xFEFF

/-- `startsWith pat l` is true when `pat` is an initial segment of `l`. -/
def startsWith : List Char → List Char → Bool
  | [], _ => true
  | _ :: _, [] => false
  | p :: ps, c :: cs => if p = c then startsWith ps cs else false

/-- `containsSub pat l` is true when `pat` occurs contiguously inside `l`. -/
def containsSub (pat : List Char) : List Char → Bool
  | [] => startsWith pat []
  | c :: cs => startsWith pat (c :: cs) || containsSub pat cs

/-- `subst2 a b r l` is JavaScript `l.replace(/ab/g, r)` for the two-character
pattern `ab`: a single left-to-right scan replacing each non-overlapping
occurrence and resuming after the inserted replacement. -/
def subst2 (a b : Char) (r : List Char) : List Char → List Char
  | [] => []
  | [c] => [c]
  | c :: c₂ :: cs =>
    if c = a ∧ c₂ = b then r ++ subst2 a b r cs
    else c :: subst2 a b r (c₂ :: cs)

/-- `occurs2 a b l` is true when the two-character pattern `ab` occurs in `l`. -/
def occurs2 (a b : Char) : List Char → Bool
  | [] => false
  | [_] => false
  | c :: c₂ :: cs => decide (c = a ∧ c₂ = b) || occurs2 a b (c₂ :: cs)

example : subst2 ':' ')' ['x'] [':', ')', ':', ')'] = ['x', 'x'] := by decide
example : subst2 ':' ')' ['x'] ['a', ':', ')', 'b'] = ['a', 'x', 'b'] := by decide
example : occurs2 ':' ')' ['a', ':', ')'] = true := by decide
example : containsSub ['a', 'b'] ['x', 'a', 'b', 'y'] = true := by decide
example : startsWith ['a'] ['a', 'b'] = true := by decide

/-! ### Link detection (`meeting.js`, `formatMessageContent`)

The URL pass is `content.replace(/(https?:\/\/[^\s]+)/g, '<a href="$1" ...>$1</a>')`:
at each scan position the regex matches a literal `http://` or `https://`
scheme followed by a maximal nonempty run of non-whitespace characters. -/

/-- The eight characters of the literal `https://` scheme. -/
def httpsPat : List Char := ['h', 't', 't', 'p', 's', ':', '/', '/']

/-- The seven characters of the literal `http://` scheme. -/
def httpPat : List Char := ['h', 't', 't', 'p', ':', '/', '/']

/-- Scheme recognition at the current scan position: `https?:\/\/`.
The two alternatives are mutually exclusive (after `http` the next character
is `s` in one case and `:` in the other), so the order of the tests is
immaterial. -/
def urlScheme (l : List Char) : Option (List Char × List Char) :=
  if startsWith httpsPat l then some (httpsPat, l.drop 8)
  else if startsWith httpPat l then some (httpPat, l.drop 7)
  else none

/-- One regex match attempt of `https?:\/\/[^\s]+` at the current position:
returns the full matched substring and the remainder of the input. -/
def matchUrl (l : List Char) : Option (List Char × List Char) :=
  match urlScheme l with
  | none => none
  | some (sch, rest) =>
    let body := rest.takeWhile fun ch => !isJsSpace ch
    if body = [] then none
    else some (sch ++ body, rest.dropWhile fun ch => !isJsSpace ch)

/-- The replacement template `<a href="$1" target="_blank" class="text-primary">$1</a>`. -/
def anchorOf (u : List Char) : List Char :=
  "<a href=\"".toList ++ u ++ "\" target=\"_blank\" class=\"text-primary\">".toList ++
    u ++ "</a>".toList

/-- Fuelled global-replace scan for the URL regex; `fuel` bounds the number of
scan steps and is never exhausted when it starts at the input length. -/
def linkifyF : Nat → List Char → List Char
  | _, [] => []
  | 0, l => l
  | fuel + 1, c :: cs =>
    match matchUrl (c :: cs) with
    | some (u, rest) => anchorOf u ++ linkifyF fuel rest
    | none => c :: linkifyF fuel cs

/-- The URL pass of `formatMessageContent`. -/
def linkify (l : List Char) : List Char := linkifyF l.length l

/-! ### Emoticon substitution (`meeting.js`, `formatMessageContent`) -/

/-- One literal two-character substitution pass of `formatMessageContent`. -/
structure Sub where
  a : Char
  b : Char
  rep : List Char
deriving DecidableEq

/-- U+1F60A, the glyph substituted for `:)`. -/
def smileRep : List Char := [Char.ofNat 0x1F60A]

/-- U+1F61E, the glyph substituted for `:(`. -/
def frownRep : List Char := [Char.ofNat 0x1F61E]

/-- U+1F603, the glyph substituted for `:D`. -/
def grinRep : List Char := [Char.ofNat 0x1F603]

/-- U+1F610, the glyph substituted for `:|`. -/
def neutralRep : List Char := [Char.ofNat 0x1F610]

/-- U+2764 U+FE0F, the glyph pair substituted for `<3`. -/
def heartRep : List Char := [Char.ofNat 0x2764, Char.ofNat 0xFE0F]

/-- Apply one substitution pass. -/
def applySub (l : List Char) (p : Sub) : List Char := subst2 p.a p.b p.rep l

/-- Apply a sequence of substitution passes, first pass first. -/
def applySubs (ps : List Sub) (l : List Char) : List Char := ps.foldl applySub l

/-- The five emoticon passes of `formatMessageContent`, in source order. -/
def emojiPasses : List Sub :=
  [⟨':', ')', smileRep⟩, ⟨':', '(', frownRep⟩, ⟨':', 'D', grinRep⟩,
   ⟨':', '|', neutralRep⟩, ⟨'<', '3', heartRep⟩]

/-- `MeetingRoom.formatMessageContent`: the five emoticon replacements followed
by the URL-to-anchor replacement. -/
def formatMessageContent (content : List Char) : List Char :=
  linkify (applySubs emojiPasses content)

example :
    formatMessageContent (":) ok".toList) =
      [Char.ofNat 0x1F60A] ++ " ok".toList := by decide

example :
    formatMessageContent ("go http://a.b now".toList) =
      "go ".toList ++ anchorOf "http://a.b".toList ++ " now".toList := by decide

example :
    containsSub "href=\"http://a.b/:D\"".toList
      (formatMessageContent "http://a.b/:D".toList) = false := by decide

/-! ### Elapsed-time rendering (`formatTime` in both `app.js` and `meeting.js`) -/

/-- Decimal digit characters of `n`, most significant first, as produced by
JavaScript `Number.prototype.toString` on a nonnegative integer; the fuel
argument dominates the number of digits. -/
def natDigitsAux : Nat → Nat → List Char
  | 0, _ => []
  | fuel + 1, n =>
    if n < 10 then [Nat.digitChar n]
    else natDigitsAux fuel (n / 10) ++ [Nat.digitChar (n % 10)]

/-- Decimal rendering of a natural number. -/
def natDigits (n : Nat) : List Char := natDigitsAux (n + 1) n

/-- `String.prototype.padStart(2, '0')`. -/
def padStart2 (l : List Char) : List Char :=
  if l.length < 2 then List.replicate (2 - l.length) '0' ++ l else l

/-- `formatTime(seconds)`: hours, minutes and seconds each rendered in decimal
and left-padded to two characters, joined by colons. -/
def formatTime (seconds : Nat) : List Char :=
  let hours := seconds / 3600
  let minutes := seconds % 3600 / 60
  let secs := seconds % 60
  padStart2 (natDigits hours) ++ ':' ::
    (padStart2 (natDigits minutes) ++ ':' :: padStart2 (natDigits secs))

example : formatTime 3661 = "01:01:01".toList := by decide
example : formatTime 0 = "00:00:00".toList := by decide
example : formatTime 360000 = "100:00:00".toList := by decide

/-! ### Meeting-ID input mask (`app.js`, `meeting_id` input handler) -/

/-- The formatting step of the mask, applied to the already stripped digit
string: truncate to 10 digits, then insert hyphens after the third and sixth
digits exactly as `value.slice(0,3) + '-' + value.slice(3,6) + '-' + value.slice(6)`
(for length ≥ 6) and `value.slice(0,3) + '-' + value.slice(3)` (for length ≥ 3). -/
def maskDigits (digits : List Char) : List Char :=
  let v := if digits.length > 10 then digits.take 10 else digits
  if v.length ≥ 6 then
    v.take 3 ++ '-' :: ((v.drop 3).take 3 ++ '-' :: v.drop 6)
  else if v.length ≥ 3 then
    v.take 3 ++ '-' :: v.drop 3
  else v

/-- The `input` handler on the `meeting_id` field: strip every non-digit
(`value.replace(/\D/g, '')`), then format. -/
def meetingIdMask (input : List Char) : List Char :=
  maskDigits (input.filter Char.isDigit)

example : meetingIdMask "1234567890".toList = "123-456-7890".toList := by decide
example : meetingIdMask "12".toList = "12".toList := by decide
example : meetingIdMask "123".toList = "123-".toList := by decide
example : meetingIdMask "12a34".toList = "123-4".toList := by decide

/-! ### Submit-button busy state (`app.js`, submit button click handler)

The handler saves `this.innerHTML`, swaps in a spinner label, disables the
button, and schedules a `setTimeout` for 3000 ms later that writes the saved
label back and re-enables the button.  The model keeps the scheduled timeouts
as a queue of (fire time, saved label) pairs; timeouts are created in
chronological fire order, so processing the due prefix in queue order is the
browser's timer order.  Because the handler sets `this.disabled = true`
synchronously and the browser dispatches no `click` event to a disabled
button, a click on a disabled button does not run the handler. -/

/-- The spinner markup the handler swaps in. -/
def spinnerHtml : List Char :=
  "<i class=\"fas fa-spinner fa-spin me-2\"></i>Loading...".toList

/-- A submit button together with its scheduled restore timeouts. -/
structure ButtonState where
  label : List Char
  disabled : Bool
  pending : List (Nat × List Char)
deriving DecidableEq

/-- A click on the button at wall-clock time `t`: a disabled button receives
no click event, so nothing happens; on an enabled button the handler saves the
current label, swaps in the spinner, disables the button and schedules the
restore for `t + 3000`. -/
def clickAt (t : Nat) (st : ButtonState) : ButtonState :=
  if st.disabled then st
  else
    { label := spinnerHtml, disabled := true,
      pending := st.pending ++ [(t + 3000, st.label)] }

/-- States of the button reachable from an idle page: at most one restore
timeout is scheduled, and whenever the button is enabled no restore is
pending (the handler disables the button together with scheduling, and the
restore re-enables it as it fires). -/
def BtnInv (st : ButtonState) : Prop :=
  st.pending.length ≤ 1 ∧ (st.disabled = false → st.pending = [])

/-- Fire every timeout due by time `t`, in schedule order. -/
def runUntil (t : Nat) (st : ButtonState) : ButtonState :=
  let due := st.pending.filter fun e => decide (e.1 ≤ t)
  let rest := st.pending.filter fun e => !decide (e.1 ≤ t)
  due.foldl (fun s e => { s with label := e.2, disabled := false })
    { st with pending := rest }

/-! ### Meeting-room controller state (`meeting.js`, class `MeetingRoom`)

Media streams are lists of tracks; `track.enabled = x` on the object held
inside a stream is modelled by rebuilding the list with that track replaced,
and `track.stop()` by incrementing a per-track stop counter. -/

/-- The `kind` of a `MediaStreamTrack`. -/
inductive TrackKind
  | video
  | audio
deriving DecidableEq

/-- A `MediaStreamTrack`: its kind, its `enabled` flag, and how many times
`stop()` has been invoked on it. -/
structure Track where
  kind : TrackKind
  enabled : Bool
  stopCount : Nat
deriving DecidableEq

/-- `stream.getVideoTracks()`. -/
def getVideoTracks (s : List Track) : List Track :=
  s.filter fun t => decide (t.kind = TrackKind.video)

/-- `stream.getAudioTracks()`. -/
def getAudioTracks (s : List Track) : List Track :=
  s.filter fun t => decide (t.kind = TrackKind.audio)

/-- `stream.getXTracks()[0].enabled = v`: set the `enabled` flag of the first
track of kind `k`, if any; every other track is untouched. -/
def setFirstTrackEnabled (k : TrackKind) (v : Bool) : List Track → List Track
  | [] => []
  | t :: ts =>
    if t.kind = k then { t with enabled := v } :: ts
    else t :: setFirstTrackEnabled k v ts

/-- `track.stop()`. -/
def stopTrack (t : Track) : Track := { t with stopCount := t.stopCount + 1 }

/-- An outbound socket event emitted by the controller. -/
inductive Emit
  | joinMeetingEv (meetingId : List Char)
  | sendMessageEv (meetingId message : List Char)
  | sendReactionEv (meetingId emoji : List Char)
  | toggleCameraEv (meetingId : List Char) (cameraOn : Bool)
  | toggleMicEv (meetingId : List Char) (micOn : Bool)
  | leaveMeetingEv (meetingId : List Char)
deriving DecidableEq

/-- The mutable fields of a `MeetingRoom` instance that the verified methods
touch, together with the outbound event log and the notification log. -/
structure MeetingState where
  meetingId : List Char
  isCameraOn : Bool
  isMicrophoneOn : Bool
  localStream : Option (List Track)
  screenStream : Option (List Track)
  timerInterval : Option Nat
  intervalActive : Bool
  timerText : List Char
  messageInput : List Char
  socketLive : Bool
  emits : List Emit
  notifications : List (List Char)
deriving DecidableEq

/-- `String.prototype.trim`. -/
def trimJs (l : List Char) : List Char :=
  ((l.dropWhile isJsSpace).reverse.dropWhile isJsSpace).reverse

/-- `MeetingRoom.sendMessage`: read and trim the input box; a falsy (empty)
trimmed message returns with no effect; otherwise emit `send_message` with the
meeting id and the trimmed text and clear the input box. -/
def sendMessage (st : MeetingState) : MeetingState :=
  let message := trimJs st.messageInput
  if message = [] then st
  else
    { st with
      emits := st.emits ++ [Emit.sendMessageEv st.meetingId message],
      messageInput := [] }

/-- `MeetingRoom.toggleCamera`: with no local stream, only an error
notification; otherwise flip `isCameraOn`, set `enabled` on the first video
track (if any), emit `toggle_camera`, and show an info notification. -/
def toggleCamera (st : MeetingState) : MeetingState :=
  match st.localStream with
  | none =>
    { st with notifications := st.notifications ++ ["Camera not available".toList] }
  | some s =>
    let turnedOn := !st.isCameraOn
    { st with
      isCameraOn := turnedOn,
      localStream := some (setFirstTrackEnabled TrackKind.video turnedOn s),
      emits := st.emits ++ [Emit.toggleCameraEv st.meetingId turnedOn],
      notifications := st.notifications ++
        ["Camera ".toList ++ (if turnedOn then "enabled".toList else "disabled".toList)] }

/-- `MeetingRoom.toggleMicrophone`, symmetric to `toggleCamera`. -/
def toggleMicrophone (st : MeetingState) : MeetingState :=
  match st.localStream with
  | none =>
    { st with notifications := st.notifications ++ ["Microphone not available".toList] }
  | some s =>
    let turnedOn := !st.isMicrophoneOn
    { st with
      isMicrophoneOn := turnedOn,
      localStream := some (setFirstTrackEnabled TrackKind.audio turnedOn s),
      emits := st.emits ++ [Emit.toggleMicEv st.meetingId turnedOn],
      notifications := st.notifications ++
        ["Microphone ".toList ++ (if turnedOn then "enabled".toList else "disabled".toList)] }

/-- One tick of the `setInterval` started by `startTimer`: if the interval is
still scheduled it renders the elapsed time into the timer element. -/
def timerTick (elapsed : Nat) (st : MeetingState) : MeetingState :=
  if st.intervalActive then { st with timerText := formatTime elapsed } else st

/-- `MeetingRoom.leaveMeeting`: emit `leave_meeting` when the socket exists,
cancel the timer interval when one was started, and invoke `stop()` once on
every track of the local stream and of the screen stream, when present. -/
def leaveMeeting (st : MeetingState) : MeetingState :=
  let st₁ :=
    if st.socketLive then
      { st with emits := st.emits ++ [Emit.leaveMeetingEv st.meetingId] }
    else st
  let st₂ :=
    if st₁.timerInterval.isSome then { st₁ with intervalActive := false } else st₁
  { st₂ with
    localStream := st₂.localStream.map (List.map stopTrack),
    screenStream := st₂.screenStream.map (List.map stopTrack) }

/-! ### Roster rebuild (`meeting.js`, `updateParticipantsList` /
`addParticipantToList` / `addParticipantVideo`) -/

/-- A participant record as pushed by the server. -/
structure Participant where
  id : List Char
  name : List Char
  camera : Bool
  microphone : Bool
deriving DecidableEq

/-- A constructed DOM element: its `id`, its `className`, and its inner markup. -/
structure DomNode where
  elemId : List Char
  className : List Char
  innerHTML : List Char
deriving DecidableEq

/-- The markup `addParticipantToList` assigns to the new entry's `innerHTML`. -/
def participantItemHtml (p : Participant) : List Char :=
  ("<div class=\"participant-avatar\"><i class=\"fas fa-user\"></i></div>" ++
    "<div class=\"participant-info\"><span class=\"participant-name\">").toList ++
  p.name ++
  "</span><div class=\"participant-status\"><i class=\"fas fa-microphone ".toList ++
  (if p.microphone then "text-success".toList else "text-danger".toList) ++
  "\"></i><i class=\"fas fa-video ".toList ++
  (if p.camera then "text-success".toList else "text-danger".toList) ++
  "\"></i></div></div>".toList

/-- The list entry built by `addParticipantToList`. -/
def mkParticipantDiv (p : Participant) : DomNode :=
  { elemId := "participant-".toList ++ p.id,
    className := "participant-item fade-in".toList,
    innerHTML := participantItemHtml p }

/-- The markup `addParticipantVideo` assigns to the new tile's `innerHTML`. -/
def participantVideoHtml (p : Participant) : List Char :=
  ("<div class=\"video-placeholder\"><i class=\"fas fa-user fa-2x text-muted\"></i></div>" ++
    "<div class=\"video-overlay\"><span class=\"participant-name\">").toList ++
  p.name ++ "</span></div>".toList

/-- The video tile built by `addParticipantVideo`. -/
def mkVideoDiv (p : Participant) : DomNode :=
  { elemId := "video-".toList ++ p.id,
    className := "participant-video fade-in".toList,
    innerHTML := participantVideoHtml p }

/-- `querySelector('.cls')` class test: the node's `className`, split on
spaces, contains the requested class. -/
def hasClassWord (cls : List Char) (n : DomNode) : Bool :=
  (n.className.splitOn ' ').contains cls

/-- The two DOM containers the roster code mutates, plus the count element. -/
structure RoomDom where
  participantsList : List DomNode
  participantVideos : List DomNode
  participantCount : List Char
deriving DecidableEq

/-- `MeetingRoom.updateParticipantsList`: remember the container's first
`.participant-item` node (assumed to be the local self entry), clear the list
container, re-append that node, then for every pushed participant other than
the local user append a fresh list entry and a fresh video tile; finally write
the total participant count.  The video container is never cleared. -/
def updateParticipantsList (userId : List Char) (dom : RoomDom)
    (participants : List Participant) : RoomDom :=
  let selfE := dom.participantsList.find? (hasClassWord "participant-item".toList)
  let kept := match selfE with | some e => [e] | none => []
  let remotes := participants.filter fun p => !(p.id == userId)
  { participantsList := kept ++ remotes.map mkParticipantDiv,
    participantVideos := dom.participantVideos ++ remotes.map mkVideoDiv,
    participantCount := natDigits participants.length }

/-! ### Concrete fixtures used by witnesses and counterexamples -/

/-- The local participant of the sample meeting. -/
def selfP : Participant := ⟨"u1".toList, "Alice".toList, true, true⟩

/-- A remote participant of the sample meeting. -/
def remoteP : Participant := ⟨"u2".toList, "Bob".toList, true, true⟩

/-- A video tile for `remoteP` left over from a previous roster push. -/
def staleTile : DomNode := mkVideoDiv remoteP

/-- DOM state before a roster push: the self entry plus one remote entry in
the list container, and one remote tile in the video container. -/
def rosterDom : RoomDom :=
  { participantsList := [mkParticipantDiv selfP, mkParticipantDiv remoteP],
    participantVideos := [staleTile],
    participantCount := ['2'] }

/-- The roster pushed by the server: self plus one remote, so `N = 1`. -/
def rosterPush : List Participant := [selfP, remoteP]

/-- The camera+microphone stream `getUserMedia({video: true, audio: true})`
grants: one video track and one audio track, both enabled. -/
def camMicTracks : List Track :=
  [⟨TrackKind.video, true, 0⟩, ⟨TrackKind.audio, true, 0⟩]

/-- A display-capture stream of one video track. -/
def screenTracks : List Track := [⟨TrackKind.video, true, 0⟩]

/-- A meeting-room state with a camera+microphone stream of one video and one
audio track, a screen stream of one video track, and a live timer. -/
def sampleState : MeetingState :=
  { meetingId := "123-456-7890".toList,
    isCameraOn := true,
    isMicrophoneOn := true,
    localStream := some camMicTracks,
    screenStream := some screenTracks,
    timerInterval := some 7,
    intervalActive := true,
    timerText := "00:00:00".toList,
    messageInput := [],
    socketLive := true,
    emits := [],
    notifications := [] }

/-- `sampleState` with whitespace-only text in the message box. -/
def blankInputState : MeetingState := { sampleState with messageInput := [' ', '\t'] }

/-- `sampleState` with `" hi "` in the message box. -/
def hiInputState : MeetingState :=
  { sampleState with messageInput := [' ', 'h', 'i', ' '] }

/-- `sampleState` before camera/microphone access was granted. -/
def noStreamState : MeetingState := { sampleState with localStream := none }

/-- A submit button in its original state. -/
def submitBtn : ButtonState := ⟨"Submit".toList, false, []⟩

/-! ## Supporting lemmas -/

theorem natDigits_lt10 {n : Nat} (h : n < 10) : natDigits n = [Nat.digitChar n] := by
  unfold natDigits natDigitsAux
  simp [h]

theorem natDigitsAux_succ (fuel n : Nat) :
    natDigitsAux (fuel + 1) n =
      if n < 10 then [Nat.digitChar n]
      else natDigitsAux fuel (n / 10) ++ [Nat.digitChar (n % 10)] := rfl

theorem natDigits_two {n : Nat} (h10 : 10 ≤ n) (h : n < 100) :
    natDigits n = [Nat.digitChar (n / 10), Nat.digitChar (n % 10)] := by
  unfold natDigits
  obtain ⟨m, rfl⟩ : ∃ m, n = m + 1 := ⟨n - 1, by omega⟩
  rw [natDigitsAux_succ, if_neg (by omega), natDigitsAux_succ, if_pos (by omega)]
  rfl

theorem padStart2_length {l : List Char} (h : l.length = 1 ∨ l.length = 2) :
    (padStart2 l).length = 2 := by
  unfold padStart2
  rcases h with h | h <;> simp [h]

theorem pad2_natDigits_lt100 {n : Nat} (h : n < 100) :
    (padStart2 (natDigits n)).length = 2 := by
  rcases Nat.lt_or_ge n 10 with h10 | h10
  · rw [natDigits_lt10 h10]; exact padStart2_length (Or.inl rfl)
  · rw [natDigits_two h10 h]; exact padStart2_length (Or.inr rfl)

theorem trimJs_eq_nil_iff {l : List Char} :
    trimJs l = [] ↔ ∀ c ∈ l, isJsSpace c = true := by
  unfold trimJs
  rw [List.reverse_eq_nil_iff, List.dropWhile_eq_nil_iff]
  constructor
  · intro h c hc
    have hsplit : l.takeWhile isJsSpace ++ l.dropWhile isJsSpace = l :=
      List.takeWhile_append_dropWhile isJsSpace l
    rw [← hsplit] at hc
    rcases List.mem_append.mp hc with h1 | h2
    · exact List.mem_takeWhile_imp h1
    · exact h c (List.mem_reverse.mpr h2)
  · intro h c hc
    exact h c ((List.dropWhile_sublist _).subset (List.mem_reverse.mp hc))

/-! ## Claim theorems -/

/-- C1, counterexample: the digit string `123` is rendered by the meeting-id
mask as `123-`, not left unchanged as `123`: the hyphen appears as soon as the
third digit is typed, not only when a fourth digit arrives. -/
theorem c1_counterexample : meetingIdMask ['1', '2', '3'] ≠ ['1', '2', '3'] := by decide

/-- C1, amended: after stripping non-digits and truncating to 10 digits, an
input whose digit sequence is `1234567890` renders as `123-456-7890`, an input
with digit sequence `12` renders as `12`, and an input with digit sequence
`123` renders as `123-` (the trailing hyphen is inserted at exactly 3 digits,
because the formatting branch fires for length ≥ 3, not only for length > 3). -/
theorem c1_mask_amended (input : List Char) :
    (input.filter Char.isDigit = "1234567890".toList →
      meetingIdMask input = "123-456-7890".toList) ∧
    (input.filter Char.isDigit = "12".toList → meetingIdMask input = "12".toList) ∧
    (input.filter Char.isDigit = "123".toList → meetingIdMask input = "123-".toList) := by
  refine ⟨fun h => ?_, fun h => ?_, fun h => ?_⟩ <;>
    (unfold meetingIdMask; rw [h]; decide)

/-- Witness for C1 at the three concrete inputs of the claim. -/
theorem c1_mask_amended_witness :
    meetingIdMask "1234567890".toList = "123-456-7890".toList ∧
    meetingIdMask "12".toList = "12".toList ∧
    meetingIdMask "123".toList = "123-".toList :=
  ⟨(c1_mask_amended _).1 (by decide), (c1_mask_amended _).2.1 (by decide),
   (c1_mask_amended _).2.2 (by decide)⟩

/-- C9: for every nonnegative number of seconds `s`, `formatTime` renders
`H:M:S` joined by colons with `H = s / 3600`, `M = s % 3600 / 60`,
`S = s % 60`; `M` and `S` are below 60 and rendered as exactly two digits, and
`H * 3600 + M * 60 + S = s`. -/
theorem c9_formatTime_spec (s : Nat) :
    ∃ H M S : Nat,
      H = s / 3600 ∧ M = s % 3600 / 60 ∧ S = s % 60 ∧
      formatTime s =
        padStart2 (natDigits H) ++ ':' ::
          (padStart2 (natDigits M) ++ ':' :: padStart2 (natDigits S)) ∧
      M < 60 ∧ S < 60 ∧
      (padStart2 (natDigits M)).length = 2 ∧
      (padStart2 (natDigits S)).length = 2 ∧
      H * 3600 + M * 60 + S = s := by
  refine ⟨s / 3600, s % 3600 / 60, s % 60, rfl, rfl, rfl, rfl, ?_, ?_, ?_, ?_, ?_⟩
  · omega
  · omega
  · exact pad2_natDigits_lt100 (by omega)
  · exact pad2_natDigits_lt100 (by omega)
  · omega

/-- C8: `sendMessage` is a no-op (the whole controller state, in particular
the input box, is unchanged and nothing is emitted) when the message box holds
only whitespace; otherwise it emits exactly one `send_message` event carrying
the meeting id and the trimmed text, and clears the input box, with no other
state change and no wait for acknowledgment. -/
theorem c8_sendMessage (st : MeetingState) :
    ((∀ c ∈ st.messageInput, isJsSpace c = true) → sendMessage st = st) ∧
    (¬(∀ c ∈ st.messageInput, isJsSpace c = true) →
      sendMessage st =
        { st with
          emits := st.emits ++
            [Emit.sendMessageEv st.meetingId (trimJs st.messageInput)],
          messageInput := [] }) := by
  constructor
  · intro h
    simp only [sendMessage]
    rw [if_pos (trimJs_eq_nil_iff.mpr h)]
  · intro h
    simp only [sendMessage]
    rw [if_neg fun he => h (trimJs_eq_nil_iff.mp he)]

/-- Witness for C8: a whitespace-only box is a no-op; `" hi "` emits the
trimmed message and clears the box. -/
theorem c8_sendMessage_witness :
    sendMessage blankInputState = blankInputState ∧
    sendMessage hiInputState =
      { hiInputState with
        emits := hiInputState.emits ++
          [Emit.sendMessageEv hiInputState.meetingId (trimJs hiInputState.messageInput)],
        messageInput := [] } :=
  ⟨(c8_sendMessage blankInputState).1 (by decide),
   (c8_sendMessage hiInputState).2 (by decide)⟩

/-- C10: with no local stream, `toggleCamera` and `toggleMicrophone` leave the
`isCameraOn` and `isMicrophoneOn` flags unchanged and emit no socket event. -/
theorem c10_toggles_no_stream (st : MeetingState) (h : st.localStream = none) :
    (toggleCamera st).isCameraOn = st.isCameraOn ∧
    (toggleCamera st).isMicrophoneOn = st.isMicrophoneOn ∧
    (toggleCamera st).emits = st.emits ∧
    (toggleMicrophone st).isCameraOn = st.isCameraOn ∧
    (toggleMicrophone st).isMicrophoneOn = st.isMicrophoneOn ∧
    (toggleMicrophone st).emits = st.emits := by
  unfold toggleCamera toggleMicrophone
  rw [h]
  exact ⟨rfl, rfl, rfl, rfl, rfl, rfl⟩

/-- Witness for C10 at a state whose camera/microphone request was denied. -/
theorem c10_toggles_no_stream_witness :
    (toggleCamera noStreamState).isCameraOn = noStreamState.isCameraOn ∧
    (toggleCamera noStreamState).isMicrophoneOn = noStreamState.isMicrophoneOn ∧
    (toggleCamera noStreamState).emits = noStreamState.emits ∧
    (toggleMicrophone noStreamState).isCameraOn = noStreamState.isCameraOn ∧
    (toggleMicrophone noStreamState).isMicrophoneOn = noStreamState.isMicrophoneOn ∧
    (toggleMicrophone noStreamState).emits = noStreamState.emits :=
  c10_toggles_no_stream noStreamState rfl

/-- A click preserves the button invariant: on a disabled button nothing
happens; on an enabled button (which by the invariant has no pending restore)
the handler schedules exactly one restore and disables the button. -/
theorem btnInv_clickAt (t : Nat) {st : ButtonState} (h : BtnInv st) :
    BtnInv (clickAt t st) := by
  unfold clickAt
  cases hd : st.disabled with
  | true => rw [if_pos rfl]; exact h
  | false =>
    rw [if_neg (by simp)]
    exact ⟨by simp [h.2 hd], fun hfalse => by simp at hfalse⟩

/-- Letting time advance preserves the button invariant: if the single
pending restore fires, the button is enabled with nothing pending; otherwise
the state is unchanged. -/
theorem btnInv_runUntil (t : Nat) {st : ButtonState} (h : BtnInv st) :
    BtnInv (runUntil t st) := by
  obtain ⟨hlen, himp⟩ := h
  cases hp : st.pending with
  | nil => constructor <;> simp [runUntil, hp]
  | cons e rest' =>
    have hrest : rest' = [] := by
      rw [hp] at hlen
      simp only [List.length_cons] at hlen
      exact List.eq_nil_of_length_eq_zero (by omega)
    subst hrest
    obtain ⟨f, l⟩ := e
    by_cases hf : f ≤ t
    · constructor <;> simp [runUntil, hp, hf]
    · refine ⟨by simp [runUntil, hp, hf], fun hdis => ?_⟩
      have hdis' : st.disabled = false := by
        have heq : (runUntil t st).disabled = st.disabled := by simp [runUntil, hp, hf]
        rw [heq] at hdis
        exact hdis
      have hnil := himp hdis'
      rw [hp] at hnil
      exact absurd hnil (by simp)

/-- C7: for every click the browser can dispatch — a click at time `t` on an
enabled button, which by the invariant (`btnInv_clickAt`, `btnInv_runUntil`)
has no pending restore — the button's label and enabled state revert to their
pre-click original values no later than 3000 ms after the click (at every
time from `t + 3000` on), regardless of whether any underlying operation
completed; and a click attempted while the button is busy within the 3000 ms
window is not dispatched at all, because the handler disabled the button
synchronously, so it disturbs nothing and the revert still happens on time. -/
theorem c7_submit_button_revert (st : ButtonState) (t t₂ t' : Nat)
    (hp : st.pending = []) (hd : st.disabled = false)
    (h₂ : t₂ < t + 3000) (ht' : t + 3000 ≤ t') :
    clickAt t₂ (runUntil t₂ (clickAt t st)) = runUntil t₂ (clickAt t st) ∧
    runUntil t' (clickAt t st) =
      { label := st.label, disabled := st.disabled, pending := [] } ∧
    runUntil t' (clickAt t₂ (runUntil t₂ (clickAt t st))) =
      { label := st.label, disabled := st.disabled, pending := [] } := by
  have hclick : clickAt t st = ⟨spinnerHtml, true, [(t + 3000, st.label)]⟩ := by
    simp [clickAt, hd, hp]
  have hnofire : runUntil t₂ (clickAt t st) = clickAt t st := by
    rw [hclick]
    have hlt : ¬t + 3000 ≤ t₂ := by omega
    simp [runUntil, hlt]
  have hnodispatch : clickAt t₂ (runUntil t₂ (clickAt t st)) =
      runUntil t₂ (clickAt t st) := by
    rw [hnofire, hclick]
    simp [clickAt]
  have hrevert : runUntil t' (clickAt t st) =
      { label := st.label, disabled := st.disabled, pending := [] } := by
    rw [hclick, hd]
    simp [runUntil, ht']
  exact ⟨hnodispatch, hrevert, by rw [hnodispatch, hnofire, hrevert]⟩

/-- Witness for C7: a click at 0 on the sample button, a click attempt at
1000 ms while busy, both observed at 3000 ms. -/
theorem c7_submit_button_revert_witness :
    clickAt 1000 (runUntil 1000 (clickAt 0 submitBtn)) =
      runUntil 1000 (clickAt 0 submitBtn) ∧
    runUntil 3000 (clickAt 0 submitBtn) =
      { label := submitBtn.label, disabled := submitBtn.disabled, pending := [] } ∧
    runUntil 3000 (clickAt 1000 (runUntil 1000 (clickAt 0 submitBtn))) =
      { label := submitBtn.label, disabled := submitBtn.disabled, pending := [] } :=
  c7_submit_button_revert submitBtn 0 1000 3000 rfl rfl (by decide) (by decide)

theorem filter_other_setFirst {k k' : TrackKind} (h : k ≠ k') (v : Bool) (s : List Track) :
    (setFirstTrackEnabled k v s).filter (fun t => decide (t.kind = k')) =
      s.filter (fun t => decide (t.kind = k')) := by
  induction s with
  | nil => rfl
  | cons t ts ih =>
    by_cases hk : t.kind = k
    · simp [setFirstTrackEnabled, hk, List.filter_cons, h]
    · simp [setFirstTrackEnabled, hk, List.filter_cons, ih]

theorem enabled_of_setFirst (k : TrackKind) (v : Bool) (s : List Track)
    (h : (s.filter (fun t => decide (t.kind = k))).length ≤ 1) :
    ∀ t ∈ (setFirstTrackEnabled k v s).filter (fun t => decide (t.kind = k)),
      t.enabled = v := by
  induction s with
  | nil => intro t ht; simp [setFirstTrackEnabled] at ht
  | cons t ts ih =>
    by_cases hk : t.kind = k
    · have hts : ts.filter (fun t => decide (t.kind = k)) = [] := by
        rw [List.filter_cons, if_pos (by simp [hk])] at h
        simp only [List.length_cons] at h
        exact List.eq_nil_of_length_eq_zero (by omega)
      intro x hx
      simp [setFirstTrackEnabled, hk, List.filter_cons, hts] at hx
      rw [hx]
    · intro x hx
      rw [List.filter_cons, if_neg (by simp [hk])] at h
      simp only [setFirstTrackEnabled, if_neg hk] at hx
      rw [List.filter_cons, if_neg (by simp [hk])] at hx
      exact ih h x hx

/-- C5: with a local stream present (one video and one audio track, as
`getUserMedia` grants) and the camera on, `toggleCamera` disables exactly the
video track(s) and leaves every audio track — in particular its `enabled`
flag — unchanged; `toggleMicrophone` is symmetric. -/
theorem c5_toggle_tracks (st : MeetingState) (s : List Track)
    (hs : st.localStream = some s)
    (hcam : st.isCameraOn = true) (hmic : st.isMicrophoneOn = true)
    (hv : (getVideoTracks s).length ≤ 1) (ha : (getAudioTracks s).length ≤ 1) :
    (∃ s', (toggleCamera st).localStream = some s' ∧
      (∀ t ∈ getVideoTracks s', t.enabled = false) ∧
      getAudioTracks s' = getAudioTracks s) ∧
    (∃ s'', (toggleMicrophone st).localStream = some s'' ∧
      (∀ t ∈ getAudioTracks s'', t.enabled = false) ∧
      getVideoTracks s'' = getVideoTracks s) := by
  constructor
  · refine ⟨setFirstTrackEnabled TrackKind.video (!st.isCameraOn) s, ?_, ?_, ?_⟩
    · simp [toggleCamera, hs]
    · rw [hcam]
      exact enabled_of_setFirst TrackKind.video (!true) s hv
    · exact filter_other_setFirst (by decide) _ s
  · refine ⟨setFirstTrackEnabled TrackKind.audio (!st.isMicrophoneOn) s, ?_, ?_, ?_⟩
    · simp [toggleMicrophone, hs]
    · rw [hmic]
      exact enabled_of_setFirst TrackKind.audio (!true) s ha
    · exact filter_other_setFirst (by decide) _ s

/-- Witness for C5 at the sample state with one video and one audio track. -/
theorem c5_toggle_tracks_witness :
    (∃ s', (toggleCamera sampleState).localStream = some s' ∧
      (∀ t ∈ getVideoTracks s', t.enabled = false) ∧
      getAudioTracks s' = getAudioTracks camMicTracks) ∧
    (∃ s'', (toggleMicrophone sampleState).localStream = some s'' ∧
      (∀ t ∈ getAudioTracks s'', t.enabled = false) ∧
      getVideoTracks s'' = getVideoTracks camMicTracks) :=
  c5_toggle_tracks sampleState camMicTracks rfl rfl rfl (by decide) (by decide)

/-- C6: `leaveMeeting`, with both streams present and a started timer, stops
every track of the camera/microphone stream and of the screen stream — each
track's stop count grows by exactly one — and cancels the timer interval, so
a subsequent timer tick renders nothing. -/
theorem c6_leaveMeeting (st : MeetingState) (s sc : List Track) (i : Nat)
    (hs : st.localStream = some s) (hsc : st.screenStream = some sc)
    (ht : st.timerInterval = some i) :
    (leaveMeeting st).localStream = some (s.map stopTrack) ∧
    (leaveMeeting st).screenStream = some (sc.map stopTrack) ∧
    (s.map stopTrack).map (fun t => t.stopCount) = s.map (fun t => t.stopCount + 1) ∧
    (sc.map stopTrack).map (fun t => t.stopCount) = sc.map (fun t => t.stopCount + 1) ∧
    (leaveMeeting st).intervalActive = false ∧
    ∀ e : Nat, timerTick e (leaveMeeting st) = leaveMeeting st := by
  have hact : (leaveMeeting st).intervalActive = false := by
    cases hb : st.socketLive <;> simp [leaveMeeting, hb, ht]
  refine ⟨?_, ?_, ?_, ?_, hact, ?_⟩
  · cases hb : st.socketLive <;> simp [leaveMeeting, hb, hs, ht]
  · cases hb : st.socketLive <;> simp [leaveMeeting, hb, hsc, ht]
  · simp [stopTrack, List.map_map, Function.comp]
  · simp [stopTrack, List.map_map, Function.comp]
  · intro e
    simp [timerTick, hact]

/-- Witness for C6 at the sample state. -/
theorem c6_leaveMeeting_witness :
    (leaveMeeting sampleState).localStream = some (camMicTracks.map stopTrack) ∧
    (leaveMeeting sampleState).screenStream = some (screenTracks.map stopTrack) ∧
    (camMicTracks.map stopTrack).map (fun t => t.stopCount) =
      camMicTracks.map (fun t => t.stopCount + 1) ∧
    (screenTracks.map stopTrack).map (fun t => t.stopCount) =
      screenTracks.map (fun t => t.stopCount + 1) ∧
    (leaveMeeting sampleState).intervalActive = false ∧
    ∀ e : Nat, timerTick e (leaveMeeting sampleState) = leaveMeeting sampleState :=
  c6_leaveMeeting sampleState camMicTracks screenTracks 7 rfl rfl rfl

set_option maxRecDepth 20000 in
/-- C3: evaluating `updateParticipantsList` at a roster push with `N = 1`
remote participant, starting from a DOM that already shows that remote's video
tile: the rebuilt list container holds the self entry plus exactly 1 remote
entry (correct), but the video container now holds 2 tiles and the stale tile
is still present, because the code never clears `participantVideos`. -/
theorem c3_roster_rebuild_eval :
    (rosterPush.filter fun p => !(p.id == "u1".toList)).length = 1 ∧
    (updateParticipantsList "u1".toList rosterDom rosterPush).participantsList =
      [mkParticipantDiv selfP, mkParticipantDiv remoteP] ∧
    (updateParticipantsList "u1".toList rosterDom rosterPush).participantVideos.length = 2 ∧
    staleTile ∈ (updateParticipantsList "u1".toList rosterDom rosterPush).participantVideos := by
  decide

/-! ## Lemmas about the URL pass -/

theorem startsWith_self_append (p l : List Char) : startsWith p (p ++ l) = true := by
  induction p with
  | nil => rfl
  | cons c cs ih => simp [startsWith, ih]

theorem startsWith_le_length {p l : List Char} (h : startsWith p l = true) :
    p.length ≤ l.length := by
  induction p generalizing l with
  | nil => simp
  | cons c cs ih =>
    cases l with
    | nil => exact absurd h (by simp [startsWith])
    | cons d ds =>
      simp only [startsWith] at h
      split at h
      · simpa using ih h
      · exact absurd h (by simp)

theorem startsWith_https_of_http (m : List Char) :
    startsWith httpsPat (httpPat ++ m) = false := by
  simp [httpsPat, httpPat, startsWith]

theorem urlScheme_http (m : List Char) :
    urlScheme (httpPat ++ m) = some (httpPat, m) := by
  unfold urlScheme
  rw [startsWith_https_of_http, startsWith_self_append]
  simp [httpPat]

theorem urlScheme_https (m : List Char) :
    urlScheme (httpsPat ++ m) = some (httpsPat, m) := by
  unfold urlScheme
  rw [startsWith_self_append]
  simp [httpsPat]

theorem urlScheme_none_of_ne_h {c : Char} (hc : c ≠ 'h') (cs : List Char) :
    urlScheme (c :: cs) = none := by
  simp [urlScheme, httpsPat, httpPat, startsWith, Ne.symm hc]

theorem takeWhile_append_all {p : Char → Bool} {xs : List Char}
    (h : ∀ x ∈ xs, p x = true) (ys : List Char) :
    (xs ++ ys).takeWhile p = xs ++ ys.takeWhile p := by
  induction xs with
  | nil => simp
  | cons x xs ih =>
    simp [List.takeWhile, h x (by simp), ih fun y hy => h y (by simp [hy])]

theorem dropWhile_append_all {p : Char → Bool} {xs : List Char}
    (h : ∀ x ∈ xs, p x = true) (ys : List Char) :
    (xs ++ ys).dropWhile p = ys.dropWhile p := by
  induction xs with
  | nil => simp
  | cons x xs ih =>
    simp [List.dropWhile, h x (by simp), ih fun y hy => h y (by simp [hy])]

theorem matchUrl_at_scheme (sch body tail : List Char)
    (hs : sch = httpPat ∨ sch = httpsPat)
    (hb : body ≠ []) (hbs : ∀ c ∈ body, isJsSpace c = false)
    (htail : tail = [] ∨ ∃ d t, tail = d :: t ∧ isJsSpace d = true) :
    matchUrl (sch ++ (body ++ tail)) = some (sch ++ body, tail) := by
  have hsch : urlScheme (sch ++ (body ++ tail)) = some (sch, body ++ tail) := by
    rcases hs with rfl | rfl
    · exact urlScheme_http _
    · exact urlScheme_https _
  unfold matchUrl
  rw [hsch]
  have hbody : ∀ c ∈ body, (fun ch => !isJsSpace ch) c = true := by
    intro c hc; simp [hbs c hc]
  have htake : (body ++ tail).takeWhile (fun ch => !isJsSpace ch) = body := by
    rw [takeWhile_append_all hbody]
    rcases htail with rfl | ⟨d, t, rfl, hd⟩
    · simp
    · simp [List.takeWhile, hd]
  have hdrop : (body ++ tail).dropWhile (fun ch => !isJsSpace ch) = tail := by
    rw [dropWhile_append_all hbody]
    rcases htail with rfl | ⟨d, t, rfl, hd⟩
    · simp
    · simp [List.dropWhile, hd]
  simp only [htake, hdrop]
  rw [if_neg hb]

theorem urlScheme_some_lt {l sch r0 : List Char} (h : urlScheme l = some (sch, r0)) :
    r0.length < l.length := by
  unfold urlScheme at h
  split at h
  · next hst =>
    have h8 : 8 ≤ l.length := startsWith_le_length hst
    obtain ⟨rfl, rfl⟩ : sch = httpsPat ∧ r0 = l.drop 8 := by simp_all
    simp [List.length_drop]; omega
  · split at h
    · next hst =>
      have h7 : 7 ≤ l.length := startsWith_le_length hst
      obtain ⟨rfl, rfl⟩ : sch = httpPat ∧ r0 = l.drop 7 := by simp_all
      simp [List.length_drop]; omega
    · exact absurd h (by simp)

theorem matchUrl_rest_lt {l u rest : List Char} (h : matchUrl l = some (u, rest)) :
    rest.length < l.length := by
  unfold matchUrl at h
  cases hu : urlScheme l with
  | none => rw [hu] at h; exact absurd h (by simp)
  | some pr =>
    obtain ⟨sch, r0⟩ := pr
    rw [hu] at h
    simp only at h
    split at h
    · exact absurd h (by simp)
    · obtain ⟨rfl, rfl⟩ : u = sch ++ r0.takeWhile (fun ch => !isJsSpace ch) ∧
          rest = r0.dropWhile (fun ch => !isJsSpace ch) := by simp_all
      calc (r0.dropWhile (fun ch => !isJsSpace ch)).length
          ≤ r0.length := (List.dropWhile_sublist _).length_le
        _ < l.length := urlScheme_some_lt hu

theorem linkifyF_congr_fuel (f₁ : Nat) :
    ∀ (f₂ : Nat) (l : List Char), l.length ≤ f₁ → l.length ≤ f₂ →
      linkifyF f₁ l = linkifyF f₂ l := by
  induction f₁ with
  | zero =>
    intro f₂ l h₁ _
    have : l = [] := List.eq_nil_of_length_eq_zero (Nat.le_zero.mp h₁)
    subst this
    cases f₂ <;> rfl
  | succ f ih =>
    intro f₂ l h₁ h₂
    cases l with
    | nil => cases f₂ <;> rfl
    | cons c cs =>
      cases f₂ with
      | zero => exact absurd h₂ (by simp)
      | succ f₂' =>
        simp only [List.length_cons] at h₁ h₂
        cases hm : matchUrl (c :: cs) with
        | none =>
          simp only [linkifyF, hm]
          rw [ih f₂' cs (by omega) (by omega)]
        | some pr =>
          obtain ⟨u, rest⟩ := pr
          have hlt := matchUrl_rest_lt hm
          simp only [List.length_cons] at hlt
          simp only [linkifyF, hm]
          rw [ih f₂' rest (by omega) (by omega)]

theorem linkify_cons_none {c : Char} {cs : List Char} (h : matchUrl (c :: cs) = none) :
    linkify (c :: cs) = c :: linkify cs := by
  unfold linkify
  simp only [List.length_cons, linkifyF, h]

theorem linkify_cons_some {c : Char} {cs u rest : List Char}
    (h : matchUrl (c :: cs) = some (u, rest)) :
    linkify (c :: cs) = anchorOf u ++ linkify rest := by
  unfold linkify
  simp only [List.length_cons, linkifyF, h]
  have hlt := matchUrl_rest_lt h
  simp only [List.length_cons] at hlt
  rw [linkifyF_congr_fuel cs.length rest.length rest (by omega) (le_refl _)]

theorem linkify_eq_of_matchUrl {l u rest : List Char} (hl : l ≠ [])
    (h : matchUrl l = some (u, rest)) :
    linkify l = anchorOf u ++ linkify rest := by
  cases l with
  | nil => exact absurd rfl hl
  | cons c cs => exact linkify_cons_some h

theorem linkify_append_no_h {pre : List Char} (h : ∀ c ∈ pre, c ≠ 'h')
    (l : List Char) : linkify (pre ++ l) = pre ++ linkify l := by
  induction pre with
  | nil => simp
  | cons c cs ih =>
    have hnone : matchUrl (c :: (cs ++ l)) = none := by
      unfold matchUrl
      rw [urlScheme_none_of_ne_h (h c (by simp)) (cs ++ l)]
    rw [List.cons_append, linkify_cons_none hnone, ih fun x hx => h x (by simp [hx])]
    rfl

/-- C2, counterexample: in the message `see http://a.b/:D now` the URL
substring `http://a.b/:D` contains the emoticon `:D`; `formatMessageContent`
produces an anchor, but no anchor whose target is the original matched
substring — the emoticon passes run first and rewrite the URL, so
`href="http://a.b/:D` occurs nowhere in the output. -/
theorem c2_counterexample :
    containsSub "<a href=\"".toList
      (formatMessageContent "see http://a.b/:D now".toList) = true ∧
    containsSub "href=\"http://a.b/:D".toList
      (formatMessageContent "see http://a.b/:D now".toList) = false := by
  decide

/-- C2, amended: the URL pass wraps each matched URL substring of the text it
scans — the text after the five emoticon substitutions — in an anchor whose
href target equals that matched substring exactly: for any prefix containing
no `h` (so no scheme can start in it), any `http://` or `https://` scheme, any
nonempty whitespace-free body and any remainder beginning with whitespace (or
empty), the linkifier emits the prefix, then the anchor whose href is exactly
scheme ++ body, then the processed remainder.  When the original message's URL
contains an emoticon sequence, the href equals its substituted form, not the
original substring (see the counterexample). -/
theorem c2_linkify_amended (pre sch body tail : List Char)
    (hpre : ∀ c ∈ pre, c ≠ 'h')
    (hs : sch = httpPat ∨ sch = httpsPat)
    (hb : body ≠ []) (hbs : ∀ c ∈ body, isJsSpace c = false)
    (htail : tail = [] ∨ ∃ d t, tail = d :: t ∧ isJsSpace d = true) :
    linkify (pre ++ (sch ++ (body ++ tail))) =
      pre ++ (anchorOf (sch ++ body) ++ linkify tail) := by
  rw [linkify_append_no_h hpre]
  have hm : matchUrl (sch ++ (body ++ tail)) = some (sch ++ body, tail) :=
    matchUrl_at_scheme sch body tail hs hb hbs htail
  rw [linkify_eq_of_matchUrl (by rcases hs with rfl | rfl <;> simp [httpPat, httpsPat]) hm]

/-- Witness for C2 amended: `go http://a.b` is rendered as `go ` followed by
an anchor for exactly `http://a.b`. -/
theorem c2_linkify_amended_witness :
    linkify ("go ".toList ++ (httpPat ++ ("a.b".toList ++ []))) =
      "go ".toList ++ (anchorOf (httpPat ++ "a.b".toList) ++ linkify []) :=
  c2_linkify_amended "go ".toList httpPat "a.b".toList [] (by decide) (Or.inl rfl)
    (by decide) (by decide) (Or.inl rfl)

/-! ## Lemmas about the emoticon passes -/

theorem subst2_cons_ne {a b : Char} {r : List Char} {x : Char} (hx : x ≠ a)
    (m : List Char) : subst2 a b r (x :: m) = x :: subst2 a b r m := by
  cases m with
  | nil => rfl
  | cons y m' => simp [subst2, hx]

theorem subst2_append_avoid {a b : Char} {r p : List Char}
    (hp : ∀ c ∈ p, c ≠ a) (m : List Char) :
    subst2 a b r (p ++ m) = p ++ subst2 a b r m := by
  induction p with
  | nil => simp
  | cons x xs ih =>
    rw [List.cons_append, subst2_cons_ne (hp x (by simp)),
      ih fun c hc => hp c (by simp [hc])]
    rfl

theorem subst2_head_cases {a b : Char} {r : List Char} (hr : r ≠ []) (y : Char)
    (m : List Char) :
    ∃ z t, subst2 a b r (y :: m) = z :: t ∧ (z = y ∨ z ∈ r) := by
  cases m with
  | nil => exact ⟨y, [], rfl, Or.inl rfl⟩
  | cons c m' =>
    by_cases h : y = a ∧ c = b
    · cases r with
      | nil => exact absurd rfl hr
      | cons z rs =>
        refine ⟨z, rs ++ subst2 a b (z :: rs) m', ?_, Or.inr (by simp)⟩
        simp [subst2, h]
    · exact ⟨y, subst2 a b r (c :: m'), by simp [subst2, h], Or.inl rfl⟩

/-- Two literal two-character replacements commute whenever their patterns are
distinct, cannot overlap (neither pattern's second character starts the
other), and both replacement strings are nonempty and avoid all four pattern
characters. -/
theorem subst2_comm (a b a' b' : Char) (r r' : List Char)
    (hba' : b ≠ a') (hb'a : b' ≠ a) (hne : ¬(a = a' ∧ b = b'))
    (hr : ∀ c ∈ r, c ≠ a ∧ c ≠ b ∧ c ≠ a' ∧ c ≠ b')
    (hr' : ∀ c ∈ r', c ≠ a ∧ c ≠ b ∧ c ≠ a' ∧ c ≠ b')
    (hrne : r ≠ []) (hr'ne : r' ≠ []) :
    ∀ l : List Char,
      subst2 a' b' r' (subst2 a b r l) = subst2 a b r (subst2 a' b' r' l)
  | [] => rfl
  | [c] => rfl
  | c₁ :: c₂ :: cs => by
    by_cases hP : c₁ = a ∧ c₂ = b
    · have e₁ : subst2 a b r (c₁ :: c₂ :: cs) = r ++ subst2 a b r cs := by
        simp [subst2, hP]
      have hQfront : ¬(c₁ = a' ∧ c₂ = b') := by
        rintro ⟨h1, h2⟩
        exact hne ⟨hP.1.symm.trans h1, hP.2.symm.trans h2⟩
      have hc₂ : c₂ ≠ a' := by rw [hP.2]; exact hba'
      have e₂ : subst2 a' b' r' (c₁ :: c₂ :: cs) = c₁ :: c₂ :: subst2 a' b' r' cs := by
        have h1 : subst2 a' b' r' (c₁ :: c₂ :: cs) =
            c₁ :: subst2 a' b' r' (c₂ :: cs) := by simp [subst2, hQfront]
        rw [h1, subst2_cons_ne hc₂]
      have e₃ : subst2 a b r (c₁ :: c₂ :: subst2 a' b' r' cs) =
          r ++ subst2 a b r (subst2 a' b' r' cs) := by simp [subst2, hP]
      rw [e₁, e₂, subst2_append_avoid (fun c hc => (hr c hc).2.2.1) _, e₃,
        subst2_comm a b a' b' r r' hba' hb'a hne hr hr' hrne hr'ne cs]
    · by_cases hQ : c₁ = a' ∧ c₂ = b'
      · have e₁ : subst2 a' b' r' (c₁ :: c₂ :: cs) = r' ++ subst2 a' b' r' cs := by
          simp [subst2, hQ]
        have hc₂ : c₂ ≠ a := by rw [hQ.2]; exact hb'a
        have e₂ : subst2 a b r (c₁ :: c₂ :: cs) = c₁ :: c₂ :: subst2 a b r cs := by
          have h1 : subst2 a b r (c₁ :: c₂ :: cs) =
              c₁ :: subst2 a b r (c₂ :: cs) := by simp [subst2, hP]
          rw [h1, subst2_cons_ne hc₂]
        have e₃ : subst2 a' b' r' (c₁ :: c₂ :: subst2 a b r cs) =
            r' ++ subst2 a' b' r' (subst2 a b r cs) := by simp [subst2, hQ]
        rw [e₁, e₂, e₃, subst2_append_avoid (fun c hc => (hr' c hc).1) _,
          subst2_comm a b a' b' r r' hba' hb'a hne hr hr' hrne hr'ne cs]
      · have e₁ : subst2 a b r (c₁ :: c₂ :: cs) =
            c₁ :: subst2 a b r (c₂ :: cs) := by simp [subst2, hP]
        have e₂ : subst2 a' b' r' (c₁ :: c₂ :: cs) =
            c₁ :: subst2 a' b' r' (c₂ :: cs) := by simp [subst2, hQ]
        rw [e₁, e₂]
        obtain ⟨z, t, hzt, hz⟩ := subst2_head_cases hrne c₂ cs
        obtain ⟨z', t', hzt', hz'⟩ := subst2_head_cases hr'ne c₂ cs
        have hQskip : subst2 a' b' r' (c₁ :: subst2 a b r (c₂ :: cs)) =
            c₁ :: subst2 a' b' r' (subst2 a b r (c₂ :: cs)) := by
          rw [hzt]
          by_cases hc₁ : c₁ = a'
          · have hzb : z ≠ b' := by
              rcases hz with rfl | hzr
              · intro hzb'; exact hQ ⟨hc₁, hzb'⟩
              · exact (hr z hzr).2.2.2
            simp [subst2, hzb]
          · exact subst2_cons_ne hc₁ _
        have hPskip : subst2 a b r (c₁ :: subst2 a' b' r' (c₂ :: cs)) =
            c₁ :: subst2 a b r (subst2 a' b' r' (c₂ :: cs)) := by
          rw [hzt']
          by_cases hc₁ : c₁ = a
          · have hzb : z' ≠ b := by
              rcases hz' with rfl | hzr
              · intro hzb'; exact hP ⟨hc₁, hzb'⟩
              · exact (hr' z' hzr).2.1
            simp [subst2, hzb]
          · exact subst2_cons_ne hc₁ _
        rw [hQskip, hPskip,
          subst2_comm a b a' b' r r' hba' hb'a hne hr hr' hrne hr'ne (c₂ :: cs)]
termination_by l => l.length

theorem occurs2_append_avoid {a b : Char} {p : List Char}
    (hp : ∀ c ∈ p, c ≠ a) (m : List Char) :
    occurs2 a b (p ++ m) = occurs2 a b m := by
  induction p with
  | nil => rfl
  | cons x xs ih =>
    have hx : x ≠ a := hp x (by simp)
    rw [List.cons_append]
    cases hxm : xs ++ m with
    | nil =>
      obtain ⟨rfl, rfl⟩ := List.append_eq_nil.mp hxm
      rfl
    | cons y t =>
      have hstep : occurs2 a b (x :: y :: t) =
          (decide (x = a ∧ y = b) || occurs2 a b (y :: t)) := by simp [occurs2]
      rw [hstep, ← hxm]
      have hd : decide (x = a ∧ y = b) = false := by simp [hx]
      rw [hd, Bool.false_or]
      exact ih fun c hc => hp c (by simp [hc])

theorem occurs2_tail_false {a b c : Char} {m : List Char}
    (h : occurs2 a b (c :: m) = false) : occurs2 a b m = false := by
  cases m with
  | nil => rfl
  | cons y t =>
    simp only [occurs2, Bool.or_eq_false_iff] at h
    exact h.2

/-- After `subst2 a b r`, the pattern `ab` no longer occurs anywhere, provided
the nonempty replacement avoids both pattern characters. -/
theorem occurs2_subst2_self (a b : Char) (r : List Char) (hrne : r ≠ [])
    (hra : ∀ c ∈ r, c ≠ a) (hrb : ∀ c ∈ r, c ≠ b) :
    ∀ l : List Char, occurs2 a b (subst2 a b r l) = false
  | [] => rfl
  | [c] => rfl
  | c₁ :: c₂ :: cs => by
    by_cases hP : c₁ = a ∧ c₂ = b
    · rw [show subst2 a b r (c₁ :: c₂ :: cs) = r ++ subst2 a b r cs from by
        simp [subst2, hP]]
      rw [occurs2_append_avoid hra]
      exact occurs2_subst2_self a b r hrne hra hrb cs
    · rw [show subst2 a b r (c₁ :: c₂ :: cs) = c₁ :: subst2 a b r (c₂ :: cs) from by
        simp [subst2, hP]]
      obtain ⟨z, t, hzt, hz⟩ := subst2_head_cases hrne c₂ cs
      have hrec := occurs2_subst2_self a b r hrne hra hrb (c₂ :: cs)
      rw [hzt] at hrec ⊢
      have hnz : ¬(c₁ = a ∧ z = b) := by
        rintro ⟨hc₁, hzb⟩
        rcases hz with rfl | hzr
        · exact hP ⟨hc₁, hzb⟩
        · exact hrb z hzr hzb
      simp [occurs2, hnz, hrec]
termination_by l => l.length

/-- A different pass `subst2 a' b' r'` cannot introduce an occurrence of `ab`,
provided its nonempty replacement avoids `a` and `b`. -/
theorem occurs2_subst2_other (a b a' b' : Char) (r' : List Char) (hr'ne : r' ≠ [])
    (hr'a : ∀ c ∈ r', c ≠ a) (hr'b : ∀ c ∈ r', c ≠ b) :
    ∀ l : List Char, occurs2 a b l = false → occurs2 a b (subst2 a' b' r' l) = false
  | [] => fun _ => rfl
  | [c] => fun _ => rfl
  | c₁ :: c₂ :: cs => fun h => by
    have hpair : ¬(c₁ = a ∧ c₂ = b) := by
      intro hx
      rw [show occurs2 a b (c₁ :: c₂ :: cs) =
          (decide (c₁ = a ∧ c₂ = b) || occurs2 a b (c₂ :: cs)) from by
        simp [occurs2]] at h
      simp [hx] at h
    have htail : occurs2 a b (c₂ :: cs) = false := occurs2_tail_false h
    by_cases hQ : c₁ = a' ∧ c₂ = b'
    · rw [show subst2 a' b' r' (c₁ :: c₂ :: cs) = r' ++ subst2 a' b' r' cs from by
        simp [subst2, hQ]]
      rw [occurs2_append_avoid hr'a]
      exact occurs2_subst2_other a b a' b' r' hr'ne hr'a hr'b cs
        (occurs2_tail_false htail)
    · rw [show subst2 a' b' r' (c₁ :: c₂ :: cs) =
          c₁ :: subst2 a' b' r' (c₂ :: cs) from by simp [subst2, hQ]]
      obtain ⟨z, t, hzt, hz⟩ := subst2_head_cases hr'ne c₂ cs
      have hrec := occurs2_subst2_other a b a' b' r' hr'ne hr'a hr'b (c₂ :: cs) htail
      rw [hzt] at hrec ⊢
      have hnz : ¬(c₁ = a ∧ z = b) := by
        rintro ⟨hc₁, hzb⟩
        rcases hz with rfl | hzr
        · exact hpair ⟨hc₁, hzb⟩
        · exact hr'b z hzr hzb
      simp [occurs2, hnz, hrec]
termination_by l => l.length

theorem foldl_applySub_perm :
    ∀ {l₁ l₂ : List Sub}, l₁.Perm l₂ →
      (∀ p ∈ l₁, ∀ q ∈ l₁, ∀ s : List Char,
        applySub (applySub s p) q = applySub (applySub s q) p) →
      ∀ s : List Char, l₁.foldl applySub s = l₂.foldl applySub s := by
  intro l₁ l₂ h
  induction h with
  | nil => intro _ _; rfl
  | cons x h' ih =>
    intro hc s
    rw [List.foldl_cons, List.foldl_cons]
    exact ih (fun p hp q hq s' =>
      hc p (List.mem_cons_of_mem x hp) q (List.mem_cons_of_mem x hq) s') _
  | swap x y t =>
    intro hc s
    rw [List.foldl_cons, List.foldl_cons, List.foldl_cons, List.foldl_cons]
    rw [hc y (by simp) x (by simp) s]
  | trans h₁ h₂ ih₁ ih₂ =>
    intro hc s
    rw [ih₁ hc s,
      ih₂ (fun p hp q hq s' =>
        hc p (h₁.mem_iff.mpr hp) q (h₁.mem_iff.mpr hq) s') s]

theorem emojiPasses_comm :
    ∀ p ∈ emojiPasses, ∀ q ∈ emojiPasses, ∀ s : List Char,
      applySub (applySub s p) q = applySub (applySub s q) p := by
  intro p hp q hq s
  simp only [emojiPasses, List.mem_cons, List.not_mem_nil, or_false] at hp hq
  rcases hp with rfl | rfl | rfl | rfl | rfl <;>
    rcases hq with rfl | rfl | rfl | rfl | rfl <;>
      first
        | rfl
        | exact subst2_comm _ _ _ _ _ _ (by decide) (by decide) (by decide)
            (by decide) (by decide) (by decide) (by decide) s

/-- C4: the five emoticon substitution passes of `formatMessageContent` give
the same result in any order of application, and the result contains no
remaining occurrence of any of the five sequences `:)`, `:(`, `:D`, `:|`,
`<3` — every occurrence has been replaced by its mapped glyph. -/
theorem c4_emoji_passes (s : List Char) (ps : List Sub) (hp : ps.Perm emojiPasses) :
    applySubs ps s = applySubs emojiPasses s ∧
    ∀ q ∈ emojiPasses, occurs2 q.a q.b (applySubs emojiPasses s) = false := by
  constructor
  · exact foldl_applySub_perm hp
      (fun p hpp q hq s' =>
        emojiPasses_comm p (hp.mem_iff.mp hpp) q (hp.mem_iff.mp hq) s') s
  · intro q hq
    have hexp : applySubs emojiPasses s =
        subst2 '<' '3' heartRep (subst2 ':' '|' neutralRep (subst2 ':' 'D' grinRep
          (subst2 ':' '(' frownRep (subst2 ':' ')' smileRep s)))) := rfl
    simp only [emojiPasses, List.mem_cons, List.not_mem_nil, or_false] at hq
    rcases hq with rfl | rfl | rfl | rfl | rfl
    · rw [hexp]
      exact occurs2_subst2_other ':' ')' '<' '3' heartRep (by decide) (by decide)
        (by decide) _
        (occurs2_subst2_other ':' ')' ':' '|' neutralRep (by decide) (by decide)
          (by decide) _
          (occurs2_subst2_other ':' ')' ':' 'D' grinRep (by decide) (by decide)
            (by decide) _
            (occurs2_subst2_other ':' ')' ':' '(' frownRep (by decide) (by decide)
              (by decide) _
              (occurs2_subst2_self ':' ')' smileRep (by decide) (by decide)
                (by decide) s))))
    · rw [hexp]
      exact occurs2_subst2_other ':' '(' '<' '3' heartRep (by decide) (by decide)
        (by decide) _
        (occurs2_subst2_other ':' '(' ':' '|' neutralRep (by decide) (by decide)
          (by decide) _
          (occurs2_subst2_other ':' '(' ':' 'D' grinRep (by decide) (by decide)
            (by decide) _
            (occurs2_subst2_self ':' '(' frownRep (by decide) (by decide)
              (by decide) _)))
    · rw [hexp]
      exact occurs2_subst2_other ':' 'D' '<' '3' heartRep (by decide) (by decide)
        (by decide) _
        (occurs2_subst2_other ':' 'D' ':' '|' neutralRep (by decide) (by decide)
          (by decide) _
          (occurs2_subst2_self ':' 'D' grinRep (by decide) (by decide) (by decide) _))
    · rw [hexp]
      exact occurs2_subst2_other ':' '|' '<' '3' heartRep (by decide) (by decide)
        (by decide) _
        (occurs2_subst2_self ':' '|' neutralRep (by decide) (by decide) (by decide) _)
    · rw [hexp]
      exact occurs2_subst2_self '<' '3' heartRep (by decide) (by decide) (by decide) _

/-- Witness for C4: the passes applied in reverse order agree with the source
order on a text containing `:)` and `<3`, and no pattern survives. -/
theorem c4_emoji_passes_witness :
    applySubs emojiPasses.reverse (':' :: ')' :: ' ' :: '<' :: '3' :: []) =
      applySubs emojiPasses (':' :: ')' :: ' ' :: '<' :: '3' :: []) ∧
    ∀ q ∈ emojiPasses,
      occurs2 q.a q.b
        (applySubs emojiPasses (':' :: ')' :: ' ' :: '<' :: '3' :: [])) = false :=
  c4_emoji_passes (':' :: ')' :: ' ' :: '<' :: '3' :: []) emojiPasses.reverse
    (List.reverse_perm emojiPasses)

end ZoomClone
